import Mathlib

/-!
Verification of the CLaSp decode loop in src/evaluation/inference_clasp.py.

This file gives a shallow embedding of the function clasp_forward together with
the process-global state it uses (current_draft_skip_mask,
steps_since_last_optim), and proves properties of that embedding.

Modelling conventions:

* Token ids are natural numbers.  The transformer is an oracle (structure
  Model) mapping a token history to the greedy (argmax) next token, to one
  concrete sampled next token (standing for a fixed multinomial outcome), and
  to the top-1 probability of the draft distribution, a rational.
* A KV cache is abstracted by its logical length (current_length_data); its
  materialized content is always the corresponding prefix of the committed
  sequence, so a forward call is a function of the token history it has
  consumed.  The clones made for drafting and optimization therefore need no
  separate representation: they see the same history.
* Hidden states are abstracted by the token history at the position where they
  were produced; the model is deterministic, so this determines them.  The
  anchor consumed by the skip-mask optimizer is such a history.
* Python int arithmetic that can go negative (the max_new_tokens clamp, the
  draft budget max_new_tokens - 2, the PLD budget) is carried out in Int.
* The ValueError raised at line 363 of the source, where
  torch.tensor(input_ids_list + [draft_tokens[-1]]) is applied to a ragged
  list (input_ids_list is a list of lists) whenever a logits processor is
  configured and every drafted token was accepted, is modelled as
  Except.error ().  With no logits processor that branch is not executed.
* Pure logging (timings, dp_statistics, first_acc_rates, warnings) is not
  modelled; it does not affect the returned values.
-/

/-- The process-wide mutable state declared global in clasp_forward and
initialized in the main block (lines 647-648 of the source). -/
structure GlobalState where
  current_draft_skip_mask : Option (List Bool)
  steps_since_last_optim : ℕ
deriving DecidableEq

/-- The configuration surface read from args inside clasp_forward.
skip_rat is the skip_ratio argument; has_processor records whether a
logits processor was configured (source: temperature > 1e-5). -/
structure Config where
  max_new_tokens : ℤ
  max_steps : ℕ
  max_cache_len : ℤ
  draft_length_K : ℕ
  draft_exit_threshold : ℚ
  opt_interval : ℕ
  hc : Bool
  num_hidden_layers : ℕ
  skip_rat : ℚ
  has_processor : Bool
deriving DecidableEq

/-- The model-compute collaborator, abstracted as deterministic functions of
the token history consumed so far.  draft_argmax and draft_sample take the
active skip mask (none means no skipping); verify functions use the full
model.  sim gives, for an anchor history, the per-layer keep/skip similarity
scores consumed by the DP skip-layer strategy (second argument: layer index,
third: 0 for keeping the layer, 1 for skipping it). -/
structure Model where
  verify_argmax : List ℕ → ℕ
  verify_sample : List ℕ → ℕ
  draft_argmax : List ℕ → Option (List Bool) → ℕ
  draft_sample : List ℕ → Option (List Bool) → ℕ
  draft_top1 : List ℕ → Option (List Bool) → ℚ
  sim : List ℕ → ℕ → ℕ → ℚ
  eos_token_id : ℕ

/-- The decode-loop state: input_ids is input_ids_list[0] (prompt plus all
committed tokens); current_length is current_length_data[0] (logical length
of the canonical KV cache); last_token_hidden_states is the hidden-state
anchor, abstracted by the history at which it was produced. -/
structure LoopState where
  input_ids : List ℕ
  generated_token_count : ℕ
  total_steps : ℕ
  current_length : ℕ
  last_token_hidden_states : Option (List ℕ)
  gs : GlobalState
  accept_length_list : List ℕ
deriving DecidableEq

/-- The values returned by clasp_forward (line 451), plus the process-global
state as it stands after the call. -/
structure ForwardOut where
  output_ids : List ℕ
  generated_token_count : ℕ
  total_steps : ℕ
  accept_length_list : List ℕ
  globals : GlobalState
deriving DecidableEq

/-- M = int(L * args.skip_ratio) (line 63): the product of L with the
rational skip_rat = num/den is the rational (L * num) / den, and Python int()
truncates toward zero, which for nonnegative ratios is the floor.  Written
with mkRat and Rat.floor so that concrete instances evaluate by reduction
(the library's rational multiplication is irreducible); the lemma
Mof_eq_floor below identifies it with the usual floor of the product. -/
def Mof (cfg : Config) : ℕ :=
  ((mkRat ((cfg.num_hidden_layers : ℤ) * cfg.skip_rat.num) cfg.skip_rat.den).floor).toNat

/-- Rational addition written out on numerators and denominators, so that
concrete instances evaluate by reduction; qadd_eq_add below identifies it
with the library addition. -/
def qadd (a b : ℚ) : ℚ :=
  mkRat (a.num * (b.den : ℤ) + b.num * (a.den : ℤ)) (a.den * b.den)

/-- Best achievable similarity after the first i layers using j skips, in the
dynamic program of the skip-layer strategy (the if expression is the maximum
of the two candidates).  Part of the spec-modelled
CLaSp_Skip_Layer_Strategy_SeqParallel below. -/
def dpBest (sim : ℕ → ℕ → ℚ) : ℕ → ℕ → ℚ
  | 0, _ => 0
  | i + 1, 0 => qadd (dpBest sim i 0) (sim i 0)
  | i + 1, j + 1 =>
    if i + 1 ≤ j + 1 then qadd (dpBest sim i j) (sim i 1)
    else if qadd (dpBest sim i (j + 1)) (sim i 0) ≤ qadd (dpBest sim i j) (sim i 1) then
      qadd (dpBest sim i j) (sim i 1)
    else qadd (dpBest sim i (j + 1)) (sim i 0)

/-- Backtracking of the dynamic program: the mask over the first i layers on
the best path that uses j skips (entry true = layer skipped). -/
def dpMaskAux (sim : ℕ → ℕ → ℚ) : ℕ → ℕ → List Bool
  | 0, _ => []
  | i + 1, 0 => dpMaskAux sim i 0 ++ [false]
  | i + 1, j + 1 =>
    if i + 1 ≤ j + 1 then dpMaskAux sim i j ++ [true]
    else if qadd (dpBest sim i (j + 1)) (sim i 0) ≤ qadd (dpBest sim i j) (sim i 1) then
      dpMaskAux sim i j ++ [true]
    else dpMaskAux sim i (j + 1) ++ [false]

/-- Modelled from the spec: CLaSp_Skip_Layer_Strategy_SeqParallel lives in
model/clasp/utils.py, which is not under src.  Per spec section 4.1 it is a
dynamic program over (layer index, skips used) keeping the maximum cosine
similarity to the anchor trajectory, with a back-pointer recording whether the
layer was skipped, and the mask is reconstructed by backtracking from
(L, M).  The similarity increments are abstracted by the oracle sim, which is
a function of the anchor; the combinatorial structure (exactly M of the L
entries are true when M is at most L, determinism) is what the development
uses. -/
def CLaSp_Skip_Layer_Strategy_SeqParallel (L M : ℕ) (sim : ℕ → ℕ → ℚ) : List Bool :=
  dpMaskAux sim L M

/-- The final n tokens of ids. -/
def suffixNgram (ids : List ℕ) (n : ℕ) : List ℕ :=
  ids.drop (ids.length - n)

/-- The start index of the most recent occurrence of the final n-gram of ids
as a window beginning strictly before the final n-gram itself. -/
def lastMatchIdx (ids : List ℕ) (n : ℕ) : Option ℕ :=
  ((List.range (ids.length - n)).filter
    (fun i => (ids.drop i).take n == suffixNgram ids n)).getLast?

/-- Try n-gram sizes n, n-1, ..., 1 and return the tokens that follow the
matched earlier occurrence. -/
def pldSearch (ids : List ℕ) (numPred : ℕ) : ℕ → List ℕ
  | 0 => []
  | n + 1 =>
    match lastMatchIdx ids (n + 1) with
    | some i => (ids.drop (i + (n + 1))).take numPred
    | none => pldSearch ids numPred n

/-- Modelled from the spec: find_candidate_pred_tokens lives in
model/pld/pld.py, which is not under src.  Per spec section 4.2 it searches the
text for the most recent earlier occurrence of the final 1 to maxNgram tokens
as a contiguous sub-sequence and returns up to numPred tokens immediately
following that occurrence, with no model calls; nothing is returned when the
remaining budget is not positive. -/
def find_candidate_pred_tokens (ids : List ℕ) (maxNgram : ℕ) (numPred : ℤ) : List ℕ :=
  if numPred ≤ 0 then [] else pldSearch ids numPred.toNat maxNgram

/-- Why the draft loop stopped (spec section 3, Draft Batch: exit marker).
confidence is the draft-exit-threshold break at line 246, eosStop the break at
line 249, budget the break at line 253, natural the completion of all K
iterations. -/
inductive DraftExit
  | confidence
  | eosStop
  | budget
  | natural
deriving DecidableEq

/-- Token selection by the full model: argmax without a logits processor,
one concrete multinomial outcome with one (lines 335-338, 367-370, and the
sample call at prefill). -/
def vSelect (m : Model) (cfg : Config) (h : List ℕ) : ℕ :=
  if cfg.has_processor then m.verify_sample h else m.verify_argmax h

/-- Token selection by the skip-mask draft model (lines 240-243). -/
def dSelect (m : Model) (cfg : Config) (h : List ℕ) (mask : Option (List Bool)) : ℕ :=
  if cfg.has_processor then m.draft_sample h mask else m.draft_argmax h mask

/-- The autoregressive draft loop (lines 214-255).  fuel is the number of
remaining iterations (initially K), acc the tokens drafted so far; the
returned Bool is continue_hc.  The three early exits are checked in source
order: confidence threshold, then EOS, then the 2-token budget margin. -/
def draftLoop (m : Model) (cfg : Config) (mask : Option (List Bool))
    (seq : List ℕ) (gen : ℕ) : ℕ → List ℕ → List ℕ × Bool × DraftExit
  | 0, acc => (acc, true, DraftExit.natural)
  | fuel + 1, acc =>
    let h := seq ++ acc
    let t := dSelect m cfg h mask
    let p := m.draft_top1 h mask
    let acc' := acc ++ [t]
    if p < cfg.draft_exit_threshold ∧ 0 < acc'.length then (acc', true, DraftExit.confidence)
    else if t = m.eos_token_id then (acc', false, DraftExit.eosStop)
    else if cfg.max_new_tokens - 2 ≤ (acc'.length : ℤ) + (gen : ℤ) then
      (acc', false, DraftExit.budget)
    else draftLoop m cfg mask seq gen fuel acc'

/-- The guard of the skip-mask optimization block (lines 151-154): a
hidden-state anchor is available, and either no mask exists yet or
steps_since_last_optim has reached opt_interval. -/
def dpTriggered (cfg : Config) (st : LoopState) : Bool :=
  st.last_token_hidden_states.isSome &&
    (st.gs.current_draft_skip_mask.isNone ||
      decide (cfg.opt_interval ≤ st.gs.steps_since_last_optim))

/-- current_draft_skip_mask after the optimization block of this step
(line 170 when the block runs, unchanged otherwise). -/
def maskAfterDP (m : Model) (cfg : Config) (st : LoopState) : Option (List Bool) :=
  if dpTriggered cfg st then
    some (CLaSp_Skip_Layer_Strategy_SeqParallel cfg.num_hidden_layers (Mof cfg)
      (m.sim (st.last_token_hidden_states.getD [])))
  else st.gs.current_draft_skip_mask

/-- steps_since_last_optim after the optimization block (reset to 0 at
line 179 when the block runs). -/
def stepsAfterDP (cfg : Config) (st : LoopState) : ℕ :=
  if dpTriggered cfg st then 0 else st.gs.steps_since_last_optim

/-- The tokens produced by the model-driven draft loop this step, the
continue_hc flag, and the exit marker. -/
def modelDraftsOf (m : Model) (cfg : Config) (st : LoopState) : List ℕ × Bool × DraftExit :=
  draftLoop m cfg (maskAfterDP m cfg st) st.input_ids st.generated_token_count
    cfg.draft_length_K []

/-- The PLD budget max_new_draft = max_new_tokens - len(draft_tokens) -
generated_token_count - 2 (line 261). -/
def pldBudget (cfg : Config) (st : LoopState) (draftLen : ℕ) : ℤ :=
  cfg.max_new_tokens - (draftLen : ℤ) - (st.generated_token_count : ℤ) - 2

/-- The lookahead (horizontal cascade) extension of the draft batch
(lines 257-267): only when the hc flag is set and continue_hc survived the
draft loop. -/
def pldExtOf (m : Model) (cfg : Config) (st : LoopState) : List ℕ :=
  if cfg.hc ∧ (modelDraftsOf m cfg st).2.1 then
    find_candidate_pred_tokens (st.input_ids ++ (modelDraftsOf m cfg st).1) 3
      (min 10 (pldBudget cfg st (modelDraftsOf m cfg st).1.length))
  else []

/-- The full draft batch of the step: model drafts plus lookahead extension. -/
def draftsOf (m : Model) (cfg : Config) (st : LoopState) : List ℕ :=
  (modelDraftsOf m cfg st).1 ++ pldExtOf m cfg st

/-- The verification-selected token at acceptance position k: row k of the
verify logits predicts the token after the first k drafted tokens
(lines 326-338; the negative row index k - num_drafted - 1 addresses row k of
the num_drafted + 1 rows). -/
def vtokAt (m : Model) (cfg : Config) (st : LoopState) (k : ℕ) : ℕ :=
  vSelect m cfg (st.input_ids ++ (draftsOf m cfg st).take k)

/-- Length of the longest prefix of ds on which ds agrees with f, starting
the position counter at k: the sequential acceptance loop of lines 326-356. -/
def matchLenAux (f : ℕ → ℕ) : List ℕ → ℕ → ℕ
  | [], _ => 0
  | d :: ds, k => if d = f k then matchLenAux f ds (k + 1) + 1 else 0

/-- accepted_len: the number of drafted tokens accepted this step. -/
def acceptedLenOf (m : Model) (cfg : Config) (st : LoopState) : ℕ :=
  matchLenAux (vtokAt m cfg st) (draftsOf m cfg st) 0

/-- final_next_token: the verification-selected token at the mismatch row
when a draft token was rejected, and the bonus token from the row after the
last drafted token when every draft token was accepted.  Both are the
verification selection at row accepted_len. -/
def finalTokOf (m : Model) (cfg : Config) (st : LoopState) : ℕ :=
  vtokAt m cfg st (acceptedLenOf m cfg st)

/-- The tokens appended to the sequence this step: the accepted draft prefix
plus the final token (lines 386-388). -/
def chunkOf (m : Model) (cfg : Config) (st : LoopState) : List ℕ :=
  (draftsOf m cfg st).take (acceptedLenOf m cfg st) ++ [finalTokOf m cfg st]

/-- The hidden-state anchor captured this step: the verifier hidden state at
the mismatch row (lines 349-351), or at the final row in the bonus case
(lines 374-376); in both cases the row whose context is the sequence plus the
accepted draft prefix. -/
def anchorAfterOf (m : Model) (cfg : Config) (st : LoopState) : List ℕ :=
  st.input_ids ++ (draftsOf m cfg st).take (acceptedLenOf m cfg st)

/-- Line 363 executes exactly when a logits processor is configured and
accepted_len = num_drafted, and it raises (torch.tensor on the ragged list
input_ids_list + [draft_tokens[-1]]; for an empty draft it is an IndexError
instead). -/
def stepCrashes (m : Model) (cfg : Config) (st : LoopState) : Bool :=
  cfg.has_processor && decide (acceptedLenOf m cfg st = (draftsOf m cfg st).length)

/-- The EOS check of line 423: input_ids_list[0][-step_accept_len:] is
exactly the chunk appended this step. -/
def eosHitOf (m : Model) (cfg : Config) (st : LoopState) : Bool :=
  decide (m.eos_token_id ∈ chunkOf m cfg st)

/-- One iteration of the generation loop (lines 143-427) without the loop
condition: optimization, drafting, verification, acceptance, commit.
new_len = current_seq_len + accepted_len + 1 is line 397.  The returned Bool
reports whether the EOS break fires. -/
def stepNext (m : Model) (cfg : Config) (st : LoopState) : LoopState :=
  { input_ids := st.input_ids ++ chunkOf m cfg st
    generated_token_count := st.generated_token_count + (acceptedLenOf m cfg st + 1)
    total_steps := st.total_steps + 1
    current_length := st.current_length + acceptedLenOf m cfg st + 1
    last_token_hidden_states := some (anchorAfterOf m cfg st)
    gs := ⟨maskAfterDP m cfg st, stepsAfterDP cfg st + 1⟩
    accept_length_list := st.accept_length_list ++ [acceptedLenOf m cfg st + 1] }

/-- One iteration of the generation loop, with the line-363 failure. -/
def stepBody (m : Model) (cfg : Config) (st : LoopState) : Except Unit (LoopState × Bool) :=
  if stepCrashes m cfg st then Except.error ()
  else Except.ok (stepNext m cfg st, eosHitOf m cfg st)

/-- The while loop of line 143, driven by fuel (an upper bound on the
remaining iterations; total_steps < max_steps bounds them by max_steps). -/
def runLoop (m : Model) (cfg : Config) : ℕ → LoopState → Except Unit LoopState
  | 0, st => Except.ok st
  | fuel + 1, st =>
    if (st.generated_token_count : ℤ) < cfg.max_new_tokens ∧
        st.total_steps < cfg.max_steps then
      match stepBody m cfg st with
      | Except.error e => Except.error e
      | Except.ok (st', eosHit) =>
        if eosHit then Except.ok st' else runLoop m cfg fuel st'
    else Except.ok st

/-- The state after prefill (lines 81-129): one forward pass over the prompt,
the sampled prefill token appended (sample from model/clasp/utils.py is not
under src; modelled from the spec: arg-max without a logits processor, a
multinomial outcome with one), generated_token_count = 1, cache length =
input length, anchor = hidden states at the last prompt position. -/
def initState (m : Model) (cfg : Config) (gs : GlobalState) (prompt : List ℕ) : LoopState :=
  { input_ids := prompt ++ [vSelect m cfg prompt]
    generated_token_count := 1
    total_steps := 0
    current_length := prompt.length
    last_token_hidden_states := some prompt
    gs := gs
    accept_length_list := [] }

/-- The max_new_tokens clamp of lines 106-110. -/
def effConfig (cfg : Config) (inputLen : ℕ) : Config :=
  if cfg.max_cache_len - (inputLen : ℤ) < cfg.max_new_tokens then
    { cfg with max_new_tokens := cfg.max_cache_len - (inputLen : ℤ) - 1 }
  else cfg

/-- The whole of clasp_forward: prefill, clamp, generation loop, and the
returned tuple (output_ids, generated_token_count, total_steps,
accept_length_list), plus the process-global state left behind for the next
call in the same process. -/
def clasp_forward (m : Model) (cfg : Config) (gs : GlobalState) (prompt : List ℕ) :
    Except Unit ForwardOut :=
  let cfg' := effConfig cfg prompt.length
  match runLoop m cfg' cfg'.max_steps (initState m cfg' gs prompt) with
  | Except.error e => Except.error e
  | Except.ok st =>
    Except.ok ⟨st.input_ids, st.generated_token_count, st.total_steps,
      st.accept_length_list, st.gs⟩

/-- The globals as the main block initializes them (lines 647-648). -/
def initialGlobals : GlobalState := ⟨none, 0⟩

/-- The value the spec's testable property asserts for the mask population:
round(L * skip_ratio). -/
def MofSpec (cfg : Config) : ℕ :=
  (round ((cfg.num_hidden_layers : ℚ) * cfg.skip_rat)).toNat

/-- Greedy content consistency: every token from position plen on equals the
full model's arg-max choice given the tokens before it. -/
def greedyConsistent (m : Model) (plen : ℕ) (seq : List ℕ) : Prop :=
  ∀ i, plen ≤ i → i < seq.length → seq[i]? = some (m.verify_argmax (seq.take i))

/-- A concrete model whose every selection is token 7 with full confidence
(delta distributions, so the sampled outcome equals the arg-max). -/
def mW : Model :=
  { verify_argmax := fun _ => 7
    verify_sample := fun _ => 7
    draft_argmax := fun _ _ => 7
    draft_sample := fun _ _ => 7
    draft_top1 := fun _ _ => 1
    sim := fun _ _ _ => 0
    eos_token_id := 99 }

/-- A small greedy configuration used for witnesses. -/
def cfgW : Config :=
  { max_new_tokens := 4
    max_steps := 50
    max_cache_len := 1000
    draft_length_K := 2
    draft_exit_threshold := 0
    opt_interval := 1
    hc := false
    num_hidden_layers := 2
    skip_rat := mkRat 1 2
    has_processor := false }

/-- The post-prefill state of mW under cfgW on the prompt [3, 3]. -/
def stW : LoopState := initState mW cfgW initialGlobals [3, 3]

/-- The output of clasp_forward for mW, cfgW, fresh globals, prompt [3, 3]. -/
def outW : ForwardOut :=
  ⟨[3, 3, 7, 7, 7, 7, 7], 5, 2, [2, 2], ⟨some [false, true], 1⟩⟩

/-- A model whose full-model choice flips from 7 to 8 once the history is
longer than three tokens, while the draft model keeps proposing 7: it accepts
the first drafted token and rejects the second. -/
def mC2 : Model :=
  { verify_argmax := fun h => if h.length ≤ 3 then 7 else 8
    verify_sample := fun h => if h.length ≤ 3 then 7 else 8
    draft_argmax := fun _ _ => 7
    draft_sample := fun _ _ => 7
    draft_top1 := fun _ _ => 1
    sim := fun _ _ _ => 0
    eos_token_id := 99 }

/-- cfgW with a budget large enough that the draft loop runs its full K. -/
def cfgC2 : Config := { cfgW with max_new_tokens := 20 }

/-- The post-prefill state of mC2 under cfgC2 on the prompt [3, 3]. -/
def stC2 : LoopState := initState mC2 cfgC2 initialGlobals [3, 3]

/-- L = 3, skip_ratio = 9/10: int truncation gives M = 2 while rounding gives
3. -/
def cfgC4 : Config :=
  { cfgC2 with num_hidden_layers := 3, skip_rat := mkRat 9 10, draft_length_K := 1 }

/-- The post-prefill state of mW under cfgC4 on the prompt [3, 3]. -/
def stC4 : LoopState := initState mW cfgC4 initialGlobals [3, 3]

/-- opt_interval = 3 with K = 2 and a fully accepting model: one step accepts
3 tokens while steps_since_last_optim only advances by 1. -/
def cfgC5 : Config := { cfgC2 with opt_interval := 3 }

/-- The post-prefill state of mW under cfgC5 on the prompt [3, 3]. -/
def stC5 : LoopState := initState mW cfgC5 initialGlobals [3, 3]

/-- A model whose every selection is token 5 with full confidence. -/
def mC6 : Model :=
  { verify_argmax := fun _ => 5
    verify_sample := fun _ => 5
    draft_argmax := fun _ _ => 5
    draft_sample := fun _ _ => 5
    draft_top1 := fun _ _ => 1
    sim := fun _ _ _ => 0
    eos_token_id := 99 }

/-- Lookahead enabled with a draft-exit threshold of 2, which every top-1
probability is below: the draft loop always exits via the confidence cutoff. -/
def cfgC6 : Config :=
  { cfgC2 with draft_exit_threshold := 2, hc := true }

/-- The post-prefill state of mC6 under cfgC6 on the prompt [5, 5]. -/
def stC6 : LoopState := initState mC6 cfgC6 initialGlobals [5, 5]

/-- draft_length_K = 0 with the lookahead cascade enabled. -/
def cfgC7 : Config := { cfgC2 with draft_length_K := 0, hc := true }

/-- The post-prefill state of mC6 under cfgC7 on the prompt [5, 5]. -/
def stC7 : LoopState := initState mC6 cfgC7 initialGlobals [5, 5]

/-- draft_length_K = 0 with the lookahead cascade disabled. -/
def cfgW0 : Config := { cfgC2 with draft_length_K := 0 }

/-- The post-prefill state of mW under cfgW0 on the prompt [3, 3]. -/
def stW0 : LoopState := initState mW cfgW0 initialGlobals [3, 3]

/-- A sampling-mode configuration (logits processor present) with K = 1. -/
def cfgC8 : Config :=
  { cfgC2 with max_new_tokens := 10, draft_length_K := 1, has_processor := true }

/-- A model for the two-run divergence: the full model always chooses 7; the
draft model matches it exactly under the mask [true, false] and proposes 8
under any other mask; the DP similarity scores make the optimizer choose
[true, false] when the anchor history has length 2 or 5 and [false, true]
otherwise. -/
def mC9 : Model :=
  { verify_argmax := fun _ => 7
    verify_sample := fun _ => 7
    draft_argmax := fun _ mk => if mk = some [true, false] then 7 else 8
    draft_sample := fun _ _ => 7
    draft_top1 := fun _ _ => 1
    sim := fun a i b =>
      if a.length = 2 ∨ a.length = 5 then (if i = 0 ∧ b = 1 then 1 else 0)
      else (if i = 1 ∧ b = 1 then 1 else 0)
    eos_token_id := 99 }

/-- Greedy configuration with opt_interval = 2 under which the carried-over
globals change the optimization schedule of a second run. -/
def cfgC9 : Config :=
  { cfgC2 with max_new_tokens := 8, max_steps := 100, opt_interval := 2 }

/-- First run of mC9 under cfgC9 from fresh globals on the prompt [3, 3]. -/
def outRun1 : ForwardOut :=
  ⟨[3, 3, 7, 7, 7, 7, 7, 7, 7, 7], 8, 3, [3, 3, 1], ⟨some [false, true], 1⟩⟩

/-- Second run of mC9 under cfgC9, from the globals outRun1 leaves behind. -/
def outRun2 : ForwardOut :=
  ⟨[3, 3, 7, 7, 7, 7, 7, 7, 7, 7, 7], 9, 5, [1, 1, 1, 3, 2], ⟨some [true, false], 2⟩⟩

/-! ### Lemmas about the sequential acceptance loop -/

theorem matchLenAux_le (f : ℕ → ℕ) : ∀ (ds : List ℕ) (k : ℕ), matchLenAux f ds k ≤ ds.length
  | [], _ => Nat.le_refl 0
  | d :: ds, k => by
    simp only [matchLenAux, List.length_cons]
    split
    · exact Nat.succ_le_succ (matchLenAux_le f ds (k + 1))
    · exact Nat.zero_le _

theorem matchLenAux_prefix (f : ℕ → ℕ) :
    ∀ (ds : List ℕ) (k i : ℕ), i < matchLenAux f ds k → ds[i]? = some (f (k + i))
  | [], _, i, h => absurd h (by simp [matchLenAux])
  | d :: ds, k, i, h => by
    simp only [matchLenAux] at h
    split at h
    · rename_i hd
      cases i with
      | zero => simpa using hd
      | succ i =>
        have hrec := matchLenAux_prefix f ds (k + 1) i (Nat.lt_of_succ_lt_succ h)
        rw [List.getElem?_cons_succ]
        rw [show k + (i + 1) = k + 1 + i by omega]
        exact hrec
    · exact absurd h (Nat.not_lt_zero i)

theorem matchLenAux_eq_of (f : ℕ → ℕ) :
    ∀ (ds : List ℕ) (k j : ℕ), (∀ i, i < j → ds[i]? = some (f (k + i))) →
      j < ds.length → ds[j]? ≠ some (f (k + j)) → matchLenAux f ds k = j
  | [], _, j, _, hj, _ => absurd hj (Nat.not_lt_zero j)
  | d :: ds, k, j, hpre, hj, hmis => by
    cases j with
    | zero =>
      simp only [List.getElem?_cons_zero, Nat.add_zero] at hmis
      have hd : d ≠ f k := fun he => hmis (congrArg some he)
      simp [matchLenAux, hd]
    | succ j =>
      have hd : d = f k := by
        have := hpre 0 (Nat.succ_pos j)
        simpa using this
      have hrec : matchLenAux f ds (k + 1) = j := by
        apply matchLenAux_eq_of f ds (k + 1) j
        · intro i hi
          have := hpre (i + 1) (Nat.succ_lt_succ hi)
          rw [List.getElem?_cons_succ] at this
          rw [show k + 1 + i = k + (i + 1) by omega]
          exact this
        · exact Nat.lt_of_succ_lt_succ hj
        · rw [show k + 1 + j = k + (j + 1) by omega]
          rw [List.getElem?_cons_succ] at hmis
          exact hmis
      simp [matchLenAux, hd, hrec]

/-! ### Lemmas about the spec-modelled DP mask -/

theorem dpMaskAux_length (sim : ℕ → ℕ → ℚ) : ∀ i j, (dpMaskAux sim i j).length = i
  | 0, _ => rfl
  | i + 1, 0 => by simp [dpMaskAux, dpMaskAux_length sim i 0]
  | i + 1, j + 1 => by
    simp only [dpMaskAux]
    split
    · simp [dpMaskAux_length sim i j]
    · split
      · simp [dpMaskAux_length sim i j]
      · simp [dpMaskAux_length sim i (j + 1)]

theorem dpMaskAux_count (sim : ℕ → ℕ → ℚ) : ∀ i j, (dpMaskAux sim i j).count true = min i j
  | 0, j => by simp [dpMaskAux]
  | i + 1, 0 => by
    simp [dpMaskAux, List.count_append, dpMaskAux_count sim i 0]
  | i + 1, j + 1 => by
    simp only [dpMaskAux]
    split
    · rename_i hij
      have h := dpMaskAux_count sim i j
      simp [List.count_append, h]
      omega
    · rename_i hij
      split
      · have h := dpMaskAux_count sim i j
        simp [List.count_append, h]
        omega
      · have h := dpMaskAux_count sim i (j + 1)
        simp [List.count_append, h]
        omega

/-! ### Lemmas about the draft loop exit marker -/

theorem draftLoop_flag_exit (m : Model) (cfg : Config) (mask : Option (List Bool))
    (seq : List ℕ) (gen : ℕ) :
    ∀ (fuel : ℕ) (acc : List ℕ), (draftLoop m cfg mask seq gen fuel acc).2.1 = true →
      (draftLoop m cfg mask seq gen fuel acc).2.2 = DraftExit.confidence ∨
      (draftLoop m cfg mask seq gen fuel acc).2.2 = DraftExit.natural
  | 0, _, _ => Or.inr rfl
  | fuel + 1, acc, h => by
    simp only [draftLoop] at h ⊢
    by_cases h1 : m.draft_top1 (seq ++ acc) mask < cfg.draft_exit_threshold ∧
        0 < (acc ++ [dSelect m cfg (seq ++ acc) mask]).length
    · rw [if_pos h1]
      exact Or.inl rfl
    · rw [if_neg h1] at h ⊢
      by_cases h2 : dSelect m cfg (seq ++ acc) mask = m.eos_token_id
      · rw [if_pos h2] at h
        cases h
      · rw [if_neg h2] at h ⊢
        by_cases h3 : cfg.max_new_tokens - 2 ≤
            ((acc ++ [dSelect m cfg (seq ++ acc) mask]).length : ℤ) + (gen : ℤ)
        · rw [if_pos h3] at h
          cases h
        · rw [if_neg h3] at h ⊢
          exact draftLoop_flag_exit m cfg mask seq gen fuel _ h

/-! ### Lemmas about the spec-modelled PLD search -/

theorem mem_of_getLast?_eq_some {l : List ℕ} {a : ℕ} (h : l.getLast? = some a) : a ∈ l := by
  obtain ⟨hne, rfl⟩ := List.mem_getLast?_eq_getLast (l := l) (x := a) (by rw [h]; exact rfl)
  exact List.getLast_mem hne

theorem lastMatchIdx_spec {ids : List ℕ} {n i : ℕ} (h : lastMatchIdx ids n = some i) :
    i + n < ids.length ∧ (ids.drop i).take n = suffixNgram ids n := by
  have hmem := mem_of_getLast?_eq_some h
  obtain ⟨hr, hp⟩ := List.mem_filter.mp hmem
  exact ⟨Nat.add_lt_of_lt_sub (List.mem_range.mp hr), eq_of_beq hp⟩

theorem pldSearch_spec {ids : List ℕ} {numPred : ℕ} :
    ∀ n, pldSearch ids numPred n ≠ [] →
      ∃ g i, 1 ≤ g ∧ g ≤ n ∧ lastMatchIdx ids g = some i ∧
        pldSearch ids numPred n = (ids.drop (i + g)).take numPred
  | 0, h => absurd rfl h
  | n + 1, h => by
    simp only [pldSearch] at h ⊢
    cases hmi : lastMatchIdx ids (n + 1) with
    | some i =>
      exact ⟨n + 1, i, Nat.succ_pos n, Nat.le_refl _, hmi, rfl⟩
    | none =>
      rw [hmi] at h
      obtain ⟨g, i, h1, h2, h3, h4⟩ := pldSearch_spec n (show pldSearch ids numPred n ≠ [] from h)
      exact ⟨g, i, h1, Nat.le_succ_of_le h2, h3, h4⟩

theorem find_candidate_spec {ids : List ℕ} {maxNgram : ℕ} {numPred : ℤ}
    (h : find_candidate_pred_tokens ids maxNgram numPred ≠ []) :
    0 < numPred ∧
      ∃ g i, 1 ≤ g ∧ g ≤ maxNgram ∧ lastMatchIdx ids g = some i ∧
        find_candidate_pred_tokens ids maxNgram numPred =
          (ids.drop (i + g)).take numPred.toNat := by
  unfold find_candidate_pred_tokens at h ⊢
  split at h
  · exact absurd rfl h
  · rename_i hpos
    rw [if_neg hpos]
    exact ⟨by omega, pldSearch_spec maxNgram h⟩

/-! ### Lemmas about one step and the loop -/

theorem stepBody_ok {m : Model} {cfg : Config} {st st' : LoopState} {b : Bool}
    (h : stepBody m cfg st = Except.ok (st', b)) :
    st' = stepNext m cfg st ∧ b = eosHitOf m cfg st ∧ stepCrashes m cfg st = false := by
  unfold stepBody at h
  split at h
  · cases h
  · rename_i hcr
    simp only [Except.ok.injEq, Prod.mk.injEq] at h
    exact ⟨h.1.symm, h.2.symm, Bool.eq_false_iff.mpr (fun he => hcr he)⟩

theorem chunkOf_length (m : Model) (cfg : Config) (st : LoopState) :
    (chunkOf m cfg st).length = acceptedLenOf m cfg st + 1 := by
  have hle : acceptedLenOf m cfg st ≤ (draftsOf m cfg st).length := matchLenAux_le _ _ _
  simp [chunkOf, List.length_take, Nat.min_eq_left hle]

theorem stepNext_seq_length (m : Model) (cfg : Config) (st : LoopState) :
    (stepNext m cfg st).input_ids.length =
      st.input_ids.length + (acceptedLenOf m cfg st + 1) := by
  show (st.input_ids ++ chunkOf m cfg st).length = _
  rw [List.length_append, chunkOf_length]

theorem runLoop_inv (m : Model) (cfg : Config) (P : LoopState → Prop)
    (hstep : ∀ st st' b, P st → stepBody m cfg st = Except.ok (st', b) → P st') :
    ∀ (fuel : ℕ) (st st' : LoopState), P st → runLoop m cfg fuel st = Except.ok st' → P st'
  | 0, st, st', hP, h => by
    simp only [runLoop, Except.ok.injEq] at h
    exact h ▸ hP
  | fuel + 1, st, st', hP, h => by
    simp only [runLoop] at h
    split at h
    · cases hsb : stepBody m cfg st with
      | error e => rw [hsb] at h; cases h
      | ok p =>
        obtain ⟨st'', b⟩ := p
        rw [hsb] at h
        have h2 : (if b = true then Except.ok st'' else runLoop m cfg fuel st'') =
            Except.ok st' := h
        by_cases hb : b = true
        · rw [if_pos hb] at h2
          simp only [Except.ok.injEq] at h2
          exact h2 ▸ hstep st st'' b hP hsb
        · rw [if_neg hb] at h2
          exact runLoop_inv m cfg P hstep fuel st'' st' (hstep st st'' b hP hsb) h2
    · simp only [Except.ok.injEq] at h
      exact h ▸ hP

theorem effConfig_has_processor (cfg : Config) (inputLen : ℕ) :
    (effConfig cfg inputLen).has_processor = cfg.has_processor := by
  unfold effConfig
  split <;> rfl

theorem clasp_forward_ok {m : Model} {cfg : Config} {gs : GlobalState} {prompt : List ℕ}
    {out : ForwardOut} (h : clasp_forward m cfg gs prompt = Except.ok out) :
    ∃ st, runLoop m (effConfig cfg prompt.length) (effConfig cfg prompt.length).max_steps
        (initState m (effConfig cfg prompt.length) gs prompt) = Except.ok st ∧
      out.output_ids = st.input_ids ∧
      out.generated_token_count = st.generated_token_count := by
  unfold clasp_forward at h
  simp only [] at h
  cases hr : runLoop m (effConfig cfg prompt.length) (effConfig cfg prompt.length).max_steps
      (initState m (effConfig cfg prompt.length) gs prompt) with
  | error e => rw [hr] at h; cases h
  | ok st =>
    rw [hr] at h
    simp only [Except.ok.injEq] at h
    exact ⟨st, rfl, by rw [← h], by rw [← h]⟩

/-! ### Greedy content consistency -/

theorem greedyConsistent_init (m : Model) (cfg : Config) (gs : GlobalState) (prompt : List ℕ)
    (hproc : cfg.has_processor = false) :
    greedyConsistent m prompt.length (initState m cfg gs prompt).input_ids := by
  intro i h1 h2
  have hlen : (initState m cfg gs prompt).input_ids.length = prompt.length + 1 := by
    simp [initState]
  have hip : i = prompt.length := by omega
  subst hip
  show (prompt ++ [vSelect m cfg prompt])[prompt.length]? =
    some (m.verify_argmax ((prompt ++ [vSelect m cfg prompt]).take prompt.length))
  rw [List.getElem?_append_right (Nat.le_refl _), Nat.sub_self, List.getElem?_cons_zero,
    List.take_left]
  unfold vSelect
  rw [hproc]
  simp

theorem greedyConsistent_step (m : Model) (cfg : Config) (st : LoopState) (plen : ℕ)
    (hproc : cfg.has_processor = false)
    (hg : greedyConsistent m plen st.input_ids) :
    greedyConsistent m plen (stepNext m cfg st).input_ids := by
  intro i h1 h2
  have hale : acceptedLenOf m cfg st ≤ (draftsOf m cfg st).length := matchLenAux_le _ _ _
  have hseq : (stepNext m cfg st).input_ids
      = st.input_ids ++ ((draftsOf m cfg st).take (acceptedLenOf m cfg st)
          ++ [finalTokOf m cfg st]) := rfl
  have htakelen : ((draftsOf m cfg st).take (acceptedLenOf m cfg st)).length
      = acceptedLenOf m cfg st := by
    rw [List.length_take]
    exact Nat.min_eq_left hale
  have hlen : (stepNext m cfg st).input_ids.length
      = st.input_ids.length + (acceptedLenOf m cfg st + 1) := stepNext_seq_length m cfg st
  have hvt : ∀ j, vtokAt m cfg st j =
      m.verify_argmax (st.input_ids ++ (draftsOf m cfg st).take j) := by
    intro j
    unfold vtokAt vSelect
    rw [hproc]
    simp
  rcases Nat.lt_or_ge i st.input_ids.length with hi | hi
  · rw [hseq, List.getElem?_append, if_pos hi,
      List.take_append_of_le_length (Nat.le_of_lt hi)]
    exact hg i h1 hi
  · obtain ⟨j, rfl⟩ : ∃ j, i = st.input_ids.length + j :=
      ⟨i - st.input_ids.length, by omega⟩
    have hjb : j < acceptedLenOf m cfg st + 1 := by
      rw [hlen] at h2
      omega
    have hctx : (st.input_ids ++ ((draftsOf m cfg st).take (acceptedLenOf m cfg st)
          ++ [finalTokOf m cfg st])).take (st.input_ids.length + j)
        = st.input_ids ++ (draftsOf m cfg st).take j := by
      rw [List.take_append, List.take_append_of_le_length (by rw [htakelen]; omega),
        List.take_take, Nat.min_eq_left (by omega)]
    rw [hseq, hctx, List.getElem?_append, if_neg (by omega), Nat.add_sub_cancel_left]
    rcases Nat.lt_or_ge j (acceptedLenOf m cfg st) with hja | hja
    · rw [List.getElem?_append, if_pos (by rw [htakelen]; exact hja),
        List.getElem?_take, if_pos hja]
      have hDj := matchLenAux_prefix (vtokAt m cfg st) (draftsOf m cfg st) 0 j hja
      rw [Nat.zero_add] at hDj
      rw [hDj, hvt]
    · have hje : j = acceptedLenOf m cfg st := by omega
      rw [List.getElem?_append, if_neg (by rw [htakelen]; omega), htakelen, hje,
        Nat.sub_self, List.getElem?_cons_zero]
      unfold finalTokOf
      rw [hvt]

theorem modelDrafts_flag_exit (m : Model) (cfg : Config) (st : LoopState)
    (h : (modelDraftsOf m cfg st).2.1 = true) :
    (modelDraftsOf m cfg st).2.2 = DraftExit.confidence ∨
    (modelDraftsOf m cfg st).2.2 = DraftExit.natural :=
  draftLoop_flag_exit m cfg _ _ _ _ _ h

/-! ### Arithmetic bridging lemmas -/

theorem int_floor_eq_rat_floor (q : ℚ) : ⌊q⌋ = q.floor := by
  rw [Rat.floor_def, Rat.floor_def']

theorem qadd_eq_add (a b : ℚ) : qadd a b = a + b := by
  unfold qadd
  rw [Rat.mkRat_eq_div]
  push_cast
  conv_rhs => rw [← Rat.num_div_den a, ← Rat.num_div_den b]
  rw [div_add_div _ _ (by exact_mod_cast a.den_nz) (by exact_mod_cast b.den_nz)]
  ring_nf

theorem Mof_eq_floor (cfg : Config) :
    Mof cfg = (⌊(cfg.num_hidden_layers : ℚ) * cfg.skip_rat⌋).toNat := by
  have h : (mkRat ((cfg.num_hidden_layers : ℤ) * cfg.skip_rat.num) cfg.skip_rat.den : ℚ)
      = (cfg.num_hidden_layers : ℚ) * cfg.skip_rat := by
    rw [Rat.mkRat_eq_div]
    push_cast
    rw [mul_div_assoc, Rat.num_div_den]
  unfold Mof
  rw [int_floor_eq_rat_floor, h]

/-! ### Claims -/

/-- C1: for every decode-loop step that completes, accepted_len lies in
[0, num_drafted], and the tokens appended to the committed sequence during the
step are exactly the accepted draft prefix followed by one final token
(mismatch correction or bonus), so exactly accepted_len + 1 tokens. -/
theorem c1_step_commits (m : Model) (cfg : Config) (st st' : LoopState) (b : Bool)
    (h : stepBody m cfg st = Except.ok (st', b)) :
    acceptedLenOf m cfg st ≤ (draftsOf m cfg st).length ∧
    st'.input_ids = st.input_ids ++ ((draftsOf m cfg st).take (acceptedLenOf m cfg st)
      ++ [finalTokOf m cfg st]) ∧
    st'.input_ids.length = st.input_ids.length + (acceptedLenOf m cfg st + 1) := by
  obtain ⟨hst', _, _⟩ := stepBody_ok h
  subst hst'
  exact ⟨matchLenAux_le _ _ _, rfl, stepNext_seq_length m cfg st⟩

theorem c1_step_commits_witness :
    acceptedLenOf mW cfgW stW ≤ (draftsOf mW cfgW stW).length ∧
    (stepNext mW cfgW stW).input_ids = stW.input_ids ++
      ((draftsOf mW cfgW stW).take (acceptedLenOf mW cfgW stW) ++ [finalTokOf mW cfgW stW]) ∧
    (stepNext mW cfgW stW).input_ids.length =
      stW.input_ids.length + (acceptedLenOf mW cfgW stW + 1) :=
  c1_step_commits mW cfgW stW (stepNext mW cfgW stW) (eosHitOf mW cfgW stW) rfl

/-- C2: if draft tokens 0 .. k-1 each equal the verification-selected token
at their position (vtokAt: arg-max without a logits processor, the sampled
outcome with one) and draft token k disagrees, then accepted_len = k exactly,
the step completes (a mismatch never reaches the crashing bonus branch), and
the final token committed this step is the verifier's chosen token at
position k, not the draft's. -/
theorem c2_mismatch_rollback (m : Model) (cfg : Config) (st : LoopState) (k : ℕ)
    (hk : k < (draftsOf m cfg st).length)
    (hpre : ∀ i, i < k → (draftsOf m cfg st)[i]? = some (vtokAt m cfg st i))
    (hmis : (draftsOf m cfg st)[k]? ≠ some (vtokAt m cfg st k)) :
    acceptedLenOf m cfg st = k ∧
    finalTokOf m cfg st = vtokAt m cfg st k ∧
    (draftsOf m cfg st)[k]? ≠ some (finalTokOf m cfg st) ∧
    stepBody m cfg st = Except.ok (stepNext m cfg st, eosHitOf m cfg st) ∧
    (stepNext m cfg st).input_ids = st.input_ids ++ ((draftsOf m cfg st).take k
      ++ [vtokAt m cfg st k]) := by
  have ha : acceptedLenOf m cfg st = k := by
    unfold acceptedLenOf
    apply matchLenAux_eq_of
    · intro i hi
      rw [Nat.zero_add]
      exact hpre i hi
    · exact hk
    · rw [Nat.zero_add]
      exact hmis
  have hfin : finalTokOf m cfg st = vtokAt m cfg st k := by
    unfold finalTokOf
    rw [ha]
  have hcr : stepCrashes m cfg st = false := by
    have hne : k ≠ (draftsOf m cfg st).length := Nat.ne_of_lt hk
    simp [stepCrashes, ha, hne]
  refine ⟨ha, hfin, ?_, ?_, ?_⟩
  · rw [hfin]
    exact hmis
  · unfold stepBody
    rw [hcr]
    simp
  · show st.input_ids ++ chunkOf m cfg st = _
    unfold chunkOf
    rw [ha, hfin]

theorem c2_mismatch_rollback_witness :
    acceptedLenOf mC2 cfgC2 stC2 = 1 ∧
    finalTokOf mC2 cfgC2 stC2 = vtokAt mC2 cfgC2 stC2 1 ∧
    (draftsOf mC2 cfgC2 stC2)[1]? ≠ some (finalTokOf mC2 cfgC2 stC2) ∧
    stepBody mC2 cfgC2 stC2 = Except.ok (stepNext mC2 cfgC2 stC2, eosHitOf mC2 cfgC2 stC2) ∧
    (stepNext mC2 cfgC2 stC2).input_ids = stC2.input_ids ++ ((draftsOf mC2 cfgC2 stC2).take 1
      ++ [vtokAt mC2 cfgC2 stC2 1]) :=
  c2_mismatch_rollback mC2 cfgC2 stC2 1 (by decide) (by decide) (by decide)

/-- C3: the canonical cache's logical length equals the committed sequence
length minus 1 after prefill, the commit of each completed step sets it to
(length before verification) + accepted_len + 1, and this preserves the
invariant, so it holds at the start of every step. -/
theorem c3_cache_length_invariant (m : Model) (cfg : Config) (gs : GlobalState)
    (prompt : List ℕ) (st st' : LoopState) (b : Bool) :
    (initState m cfg gs prompt).current_length + 1 =
      (initState m cfg gs prompt).input_ids.length ∧
    (st.current_length + 1 = st.input_ids.length →
      stepBody m cfg st = Except.ok (st', b) →
      st'.current_length = st.current_length + acceptedLenOf m cfg st + 1 ∧
      st'.current_length + 1 = st'.input_ids.length) := by
  constructor
  · simp [initState]
  · intro hinv h
    obtain ⟨hst', _, _⟩ := stepBody_ok h
    subst hst'
    refine ⟨rfl, ?_⟩
    have hl := stepNext_seq_length m cfg st
    show st.current_length + acceptedLenOf m cfg st + 1 + 1 = (stepNext m cfg st).input_ids.length
    omega

theorem c3_cache_length_invariant_witness :
    ((initState mW cfgW initialGlobals [3, 3]).current_length + 1 =
      (initState mW cfgW initialGlobals [3, 3]).input_ids.length) ∧
    ((stepNext mW cfgW stW).current_length =
      stW.current_length + acceptedLenOf mW cfgW stW + 1 ∧
    (stepNext mW cfgW stW).current_length + 1 = (stepNext mW cfgW stW).input_ids.length) :=
  ⟨(c3_cache_length_invariant mW cfgW initialGlobals [3, 3] stW (stepNext mW cfgW stW)
      (eosHitOf mW cfgW stW)).1,
   (c3_cache_length_invariant mW cfgW initialGlobals [3, 3] stW (stepNext mW cfgW stW)
      (eosHitOf mW cfgW stW)).2 (by decide) rfl⟩

/-- C4 counterexample: with L = 3 and skip_ratio = 9/10 the optimizer runs
(dpTriggered) and installs a mask with 2 true entries, while
round(L * skip_ratio) = 3: the claim's count exactly-round(L*skip_ratio) is
false on the code, which uses int truncation. -/
theorem c4_round_counterexample :
    dpTriggered cfgC4 stC4 = true ∧
    (stepNext mW cfgC4 stC4).gs.current_draft_skip_mask = some [false, true, true] ∧
    [false, true, true].count true = 2 ∧
    MofSpec cfgC4 = 3 ∧
    ¬([false, true, true].count true = MofSpec cfgC4) := by
  have hms : MofSpec cfgC4 = 3 := by
    norm_num [MofSpec, cfgC4, cfgC2, cfgW, round_eq, Rat.mkRat_eq_div]
    decide
  refine ⟨by decide, by decide, by decide, hms, ?_⟩
  rw [hms]
  decide

/-- C4 (amended): immediately after every optimization call the skip mask is a
boolean vector of length L with exactly M = int(L * skip_ratio) (floor, not
round) true entries, provided M is at most L; and a step in which the
optimizer is not triggered leaves the mask unchanged. -/
theorem c4_mask_after_optim (m : Model) (cfg : Config) (st : LoopState)
    (hM : Mof cfg ≤ cfg.num_hidden_layers) :
    (stepNext m cfg st).gs.current_draft_skip_mask =
      (if dpTriggered cfg st then
        some (CLaSp_Skip_Layer_Strategy_SeqParallel cfg.num_hidden_layers (Mof cfg)
          (m.sim (st.last_token_hidden_states.getD [])))
      else st.gs.current_draft_skip_mask) ∧
    (CLaSp_Skip_Layer_Strategy_SeqParallel cfg.num_hidden_layers (Mof cfg)
      (m.sim (st.last_token_hidden_states.getD []))).length = cfg.num_hidden_layers ∧
    (CLaSp_Skip_Layer_Strategy_SeqParallel cfg.num_hidden_layers (Mof cfg)
      (m.sim (st.last_token_hidden_states.getD []))).count true = Mof cfg := by
  refine ⟨rfl, dpMaskAux_length _ _ _, ?_⟩
  show (dpMaskAux _ _ _).count true = _
  rw [dpMaskAux_count]
  exact Nat.min_eq_right hM

theorem c4_mask_after_optim_witness :
    (stepNext mW cfgW stW).gs.current_draft_skip_mask =
      (if dpTriggered cfgW stW then
        some (CLaSp_Skip_Layer_Strategy_SeqParallel cfgW.num_hidden_layers (Mof cfgW)
          (mW.sim (stW.last_token_hidden_states.getD [])))
      else stW.gs.current_draft_skip_mask) ∧
    (CLaSp_Skip_Layer_Strategy_SeqParallel cfgW.num_hidden_layers (Mof cfgW)
      (mW.sim (stW.last_token_hidden_states.getD []))).length = cfgW.num_hidden_layers ∧
    (CLaSp_Skip_Layer_Strategy_SeqParallel cfgW.num_hidden_layers (Mof cfgW)
      (mW.sim (stW.last_token_hidden_states.getD []))).count true = Mof cfgW :=
  c4_mask_after_optim mW cfgW stW (by decide)

/-- C5 counterexample: with opt_interval = 3, the first step runs the
optimizer and then accepts 3 tokens (accept_length_list = [3]), so 3 tokens
have been accepted since the last optimization, which is at least the
interval; an anchor is available and a mask exists, yet the optimizer is not
triggered at the next step, because the code counts steps (the counter is 1),
not accepted tokens. -/
theorem c5_interval_counterexample :
    cfgC5.opt_interval = 3 ∧
    dpTriggered cfgC5 stC5 = true ∧
    stepBody mW cfgC5 stC5 = Except.ok (stepNext mW cfgC5 stC5, false) ∧
    (stepNext mW cfgC5 stC5).accept_length_list = [3] ∧
    (stepNext mW cfgC5 stC5).gs.steps_since_last_optim = 1 ∧
    (stepNext mW cfgC5 stC5).last_token_hidden_states.isSome = true ∧
    (stepNext mW cfgC5 stC5).gs.current_draft_skip_mask.isSome = true ∧
    dpTriggered cfgC5 (stepNext mW cfgC5 stC5) = false := by
  exact ⟨rfl, by decide, rfl, by decide, by decide, by decide, by decide, by decide⟩

/-- C5 (amended): the optimizer is invoked on a step exactly when an anchor is
available and either no mask exists or the number of decode steps (not
accepted tokens) since the last optimization is at least opt_interval; the
counter advances by exactly one per completed step, regardless of how many
tokens the step accepted. -/
theorem c5_optim_schedule (m : Model) (cfg : Config) (st st' : LoopState) (b : Bool)
    (h : stepBody m cfg st = Except.ok (st', b)) :
    st'.gs.steps_since_last_optim =
      (if dpTriggered cfg st then 0 else st.gs.steps_since_last_optim) + 1 ∧
    dpTriggered cfg st = (st.last_token_hidden_states.isSome &&
      (st.gs.current_draft_skip_mask.isNone ||
        decide (cfg.opt_interval ≤ st.gs.steps_since_last_optim))) := by
  obtain ⟨hst', _, _⟩ := stepBody_ok h
  subst hst'
  exact ⟨rfl, rfl⟩

theorem c5_optim_schedule_witness :
    (stepNext mW cfgW stW).gs.steps_since_last_optim =
      (if dpTriggered cfgW stW then 0 else stW.gs.steps_since_last_optim) + 1 ∧
    dpTriggered cfgW stW = (stW.last_token_hidden_states.isSome &&
      (stW.gs.current_draft_skip_mask.isNone ||
        decide (cfgW.opt_interval ≤ stW.gs.steps_since_last_optim))) :=
  c5_optim_schedule mW cfgW stW (stepNext mW cfgW stW) (eosHitOf mW cfgW stW) rfl

/-- C6 counterexample: with the draft-exit threshold above every top-1
probability, the draft loop exits via the confidence cutoff after one of its
two allowed tokens, yet the lookahead extension still runs and appends a
token — the break at line 246 does not clear continue_hc, so the claim that
the extension runs only when the loop ended naturally is false on the code. -/
theorem c6_confidence_exit_counterexample :
    cfgC6.draft_length_K = 2 ∧
    (modelDraftsOf mC6 cfgC6 stC6).1.length = 1 ∧
    (modelDraftsOf mC6 cfgC6 stC6).2.2 = DraftExit.confidence ∧
    pldExtOf mC6 cfgC6 stC6 = [5] := by
  refine ⟨rfl, by decide, by decide, by decide⟩

/-- C6 (amended): the lookahead extension is nonempty only when
horizontal cascade is enabled and the draft loop did not exit via EOS or the
budget margin (a confidence-cutoff exit does not disable it); when it runs it
appends at most min(10, remaining budget) tokens, and they are an exact copy
of the tokens immediately following an earlier occurrence of the draft's
final 1-3 tokens in the committed-sequence-plus-draft text, with no model
calls. -/
theorem c6_lookahead_copy (m : Model) (cfg : Config) (st : LoopState)
    (h : pldExtOf m cfg st ≠ []) :
    cfg.hc = true ∧
    (modelDraftsOf m cfg st).2.1 = true ∧
    (modelDraftsOf m cfg st).2.2 ≠ DraftExit.eosStop ∧
    (modelDraftsOf m cfg st).2.2 ≠ DraftExit.budget ∧
    (pldExtOf m cfg st).length ≤ 10 ∧
    ((pldExtOf m cfg st).length : ℤ) ≤ pldBudget cfg st (modelDraftsOf m cfg st).1.length ∧
    (∃ g i, 1 ≤ g ∧ g ≤ 3 ∧
      i + g < (st.input_ids ++ (modelDraftsOf m cfg st).1).length ∧
      ((st.input_ids ++ (modelDraftsOf m cfg st).1).drop i).take g =
        suffixNgram (st.input_ids ++ (modelDraftsOf m cfg st).1) g ∧
      pldExtOf m cfg st =
        ((st.input_ids ++ (modelDraftsOf m cfg st).1).drop (i + g)).take
          (min 10 (pldBudget cfg st (modelDraftsOf m cfg st).1.length)).toNat) := by
  by_cases hcnd : cfg.hc = true ∧ (modelDraftsOf m cfg st).2.1 = true
  case neg =>
    exfalso
    apply h
    unfold pldExtOf
    rw [if_neg hcnd]
  case pos =>
    have hpe : pldExtOf m cfg st = find_candidate_pred_tokens
        (st.input_ids ++ (modelDraftsOf m cfg st).1) 3
        (min 10 (pldBudget cfg st (modelDraftsOf m cfg st).1.length)) := by
      unfold pldExtOf
      rw [if_pos hcnd]
    rw [hpe] at h
    obtain ⟨hposB, g, i, hg1, hg3, hmi, heq⟩ := find_candidate_spec h
    obtain ⟨hlt, hwin⟩ := lastMatchIdx_spec hmi
    have hexit := modelDrafts_flag_exit m cfg st hcnd.2
    have hlentake : (pldExtOf m cfg st).length ≤
        (min 10 (pldBudget cfg st (modelDraftsOf m cfg st).1.length)).toNat := by
      rw [hpe, heq, List.length_take]
      exact min_le_left _ _
    refine ⟨hcnd.1, hcnd.2, ?_, ?_, ?_, ?_, g, i, hg1, hg3, hlt, hwin, by rw [hpe]; exact heq⟩
    · rcases hexit with he | he <;> rw [he] <;> decide
    · rcases hexit with he | he <;> rw [he] <;> decide
    · calc (pldExtOf m cfg st).length
          ≤ (min 10 (pldBudget cfg st (modelDraftsOf m cfg st).1.length)).toNat := hlentake
        _ ≤ ((10 : ℤ)).toNat := Int.toNat_le_toNat (min_le_left _ _)
        _ = 10 := rfl
    · calc ((pldExtOf m cfg st).length : ℤ)
          ≤ ((min 10 (pldBudget cfg st (modelDraftsOf m cfg st).1.length)).toNat : ℤ) := by
            exact_mod_cast hlentake
        _ = min 10 (pldBudget cfg st (modelDraftsOf m cfg st).1.length) :=
            Int.toNat_of_nonneg (le_of_lt hposB)
        _ ≤ pldBudget cfg st (modelDraftsOf m cfg st).1.length := min_le_right _ _

theorem c6_lookahead_copy_witness :
    cfgC6.hc = true ∧
    (modelDraftsOf mC6 cfgC6 stC6).2.1 = true ∧
    (modelDraftsOf mC6 cfgC6 stC6).2.2 ≠ DraftExit.eosStop ∧
    (modelDraftsOf mC6 cfgC6 stC6).2.2 ≠ DraftExit.budget ∧
    (pldExtOf mC6 cfgC6 stC6).length ≤ 10 ∧
    ((pldExtOf mC6 cfgC6 stC6).length : ℤ) ≤
      pldBudget cfgC6 stC6 (modelDraftsOf mC6 cfgC6 stC6).1.length ∧
    (∃ g i, 1 ≤ g ∧ g ≤ 3 ∧
      i + g < (stC6.input_ids ++ (modelDraftsOf mC6 cfgC6 stC6).1).length ∧
      ((stC6.input_ids ++ (modelDraftsOf mC6 cfgC6 stC6).1).drop i).take g =
        suffixNgram (stC6.input_ids ++ (modelDraftsOf mC6 cfgC6 stC6).1) g ∧
      pldExtOf mC6 cfgC6 stC6 =
        ((stC6.input_ids ++ (modelDraftsOf mC6 cfgC6 stC6).1).drop (i + g)).take
          (min 10 (pldBudget cfgC6 stC6 (modelDraftsOf mC6 cfgC6 stC6).1.length)).toNat) :=
  c6_lookahead_copy mC6 cfgC6 stC6 (by decide)

/-- C7 counterexample: with draft_length_K = 0 but the horizontal cascade
enabled, the PLD extension still produces a draft token, and the step commits
two tokens, so the claim that K = 0 gives an empty draft batch and exactly
one committed token per step is false on the code. -/
theorem c7_hc_counterexample :
    cfgC7.draft_length_K = 0 ∧
    draftsOf mC6 cfgC7 stC7 = [5] ∧
    (stepNext mC6 cfgC7 stC7).input_ids.length = stC7.input_ids.length + 2 ∧
    stepBody mC6 cfgC7 stC7 = Except.ok (stepNext mC6 cfgC7 stC7, false) := by
  refine ⟨rfl, by decide, by decide, rfl⟩

/-- C7 (amended): with draft_length_K = 0 and the horizontal cascade
disabled, the draft batch is empty, accepted_len = 0, and every completed
step commits exactly one token (plain autoregressive decoding). -/
theorem c7_k_zero (m : Model) (cfg : Config) (st st' : LoopState) (b : Bool)
    (hK : cfg.draft_length_K = 0) (hhc : cfg.hc = false)
    (h : stepBody m cfg st = Except.ok (st', b)) :
    draftsOf m cfg st = [] ∧ acceptedLenOf m cfg st = 0 ∧
    st'.input_ids.length = st.input_ids.length + 1 := by
  have hmd1 : (modelDraftsOf m cfg st).1 = [] := by
    unfold modelDraftsOf
    rw [hK]
    rfl
  have hcnd : ¬(cfg.hc = true ∧ (modelDraftsOf m cfg st).2.1 = true) := by
    rintro ⟨h1, _⟩
    rw [hhc] at h1
    cases h1
  have hpld : pldExtOf m cfg st = [] := by
    unfold pldExtOf
    rw [if_neg hcnd]
  have hD : draftsOf m cfg st = [] := by
    unfold draftsOf
    rw [hmd1, hpld]
    rfl
  have ha : acceptedLenOf m cfg st = 0 := by
    unfold acceptedLenOf
    rw [hD]
    rfl
  obtain ⟨hst', _, _⟩ := stepBody_ok h
  subst hst'
  refine ⟨hD, ha, ?_⟩
  rw [stepNext_seq_length, ha]

theorem c7_k_zero_witness :
    draftsOf mW cfgW0 stW0 = [] ∧ acceptedLenOf mW cfgW0 stW0 = 0 ∧
    (stepNext mW cfgW0 stW0).input_ids.length = stW0.input_ids.length + 1 :=
  c7_k_zero mW cfgW0 stW0 (stepNext mW cfgW0 stW0) (eosHitOf mW cfgW0 stW0) rfl rfl rfl

/-- C8: the decode loop's own exits are the token budget, the step budget and
EOS, but the claim that no core-protocol branch raises is false on the code:
with a logits processor configured and every drafted token accepted, line 363
builds torch.tensor(input_ids_list + [draft_tokens[-1]]) from a ragged list
and raises.  Concretely: sampling mode, K = 1, a model whose draft and verify
distributions are the same delta at token 7, prompt [3] — the very first step
reaches the bonus branch and fails. -/
theorem c8_sampling_bonus_crash :
    clasp_forward mW cfgC8 initialGlobals [3] = Except.error () := rfl

/-- C9 counterexample: two runs of clasp_forward in the same process with
identical inputs, model and configuration, the second starting from the
process-global state the first left behind, return different output
sequences (lengths 10 and 11): the persistent skip mask and
steps-since-optimization counter change the optimization schedule and
thereby the step boundaries of the second run. -/
theorem c9_global_state_counterexample :
    clasp_forward mC9 cfgC9 initialGlobals [3, 3] = Except.ok outRun1 ∧
    clasp_forward mC9 cfgC9 outRun1.globals [3, 3] = Except.ok outRun2 ∧
    outRun1.output_ids ≠ outRun2.output_ids := by
  refine ⟨rfl, rfl, by decide⟩

/-- C9 (amended): in greedy mode every committed token equals the full
model's arg-max choice given the tokens before it, for any process-global
state at entry; two same-process runs can therefore differ only in how many
tokens are committed (the persistent mask and counter shift step
boundaries), not in the content at any common position, and runs entered
with identical globals are bit-identical. -/
theorem c9_greedy_content (m : Model) (cfg : Config) (gs : GlobalState) (prompt : List ℕ)
    (out : ForwardOut) (hproc : cfg.has_processor = false)
    (h : clasp_forward m cfg gs prompt = Except.ok out) :
    greedyConsistent m prompt.length out.output_ids := by
  obtain ⟨st, hrun, hout, _⟩ := clasp_forward_ok h
  have hproc' : (effConfig cfg prompt.length).has_processor = false := by
    rw [effConfig_has_processor]
    exact hproc
  have key := runLoop_inv m (effConfig cfg prompt.length)
    (fun s => greedyConsistent m prompt.length s.input_ids)
    (fun s s' b hP hsb => by
      obtain ⟨hs', _, _⟩ := stepBody_ok hsb
      subst hs'
      exact greedyConsistent_step m (effConfig cfg prompt.length) s prompt.length hproc' hP)
    (effConfig cfg prompt.length).max_steps
    (initState m (effConfig cfg prompt.length) gs prompt) st
    (greedyConsistent_init m (effConfig cfg prompt.length) gs prompt hproc') hrun
  rw [hout]
  exact key

theorem c9_greedy_content_witness :
    greedyConsistent mW ([3, 3] : List ℕ).length outW.output_ids :=
  c9_greedy_content mW cfgW initialGlobals [3, 3] outW rfl rfl

/-- C10: the sequence returned by clasp_forward is the whole of
input_ids_list[0] — the original prompt as a prefix followed by all committed
tokens — while generated_token_count counts only the tokens after the prompt,
the prefill token being the first of them. -/
theorem c10_output_structure (m : Model) (cfg : Config) (gs : GlobalState) (prompt : List ℕ)
    (out : ForwardOut) (h : clasp_forward m cfg gs prompt = Except.ok out) :
    (∃ t, out.output_ids = prompt ++ t) ∧
    out.generated_token_count + prompt.length = out.output_ids.length := by
  obtain ⟨st, hrun, hout, hgen⟩ := clasp_forward_ok h
  have key := runLoop_inv m (effConfig cfg prompt.length)
    (fun s => (∃ t, s.input_ids = prompt ++ t) ∧
      s.generated_token_count + prompt.length = s.input_ids.length)
    (fun s s' b hP hsb => by
      obtain ⟨hs', _, _⟩ := stepBody_ok hsb
      subst hs'
      obtain ⟨⟨t, ht⟩, hlen⟩ := hP
      constructor
      · refine ⟨t ++ chunkOf m (effConfig cfg prompt.length) s, ?_⟩
        show s.input_ids ++ chunkOf m (effConfig cfg prompt.length) s =
          prompt ++ (t ++ chunkOf m (effConfig cfg prompt.length) s)
        rw [ht, List.append_assoc]
      · have hsl := stepNext_seq_length m (effConfig cfg prompt.length) s
        show s.generated_token_count + (acceptedLenOf m (effConfig cfg prompt.length) s + 1)
            + prompt.length = (stepNext m (effConfig cfg prompt.length) s).input_ids.length
        omega)
    (effConfig cfg prompt.length).max_steps
    (initState m (effConfig cfg prompt.length) gs prompt) st
    ⟨⟨[vSelect m (effConfig cfg prompt.length) prompt], rfl⟩, by
      simp [initState, Nat.add_comm]⟩ hrun
  rw [hout, hgen]
  exact key

theorem c10_output_structure_witness :
    (∃ t, outW.output_ids = [3, 3] ++ t) ∧
    outW.generated_token_count + ([3, 3] : List ℕ).length = outW.output_ids.length :=
  c10_output_structure mW cfgW initialGlobals [3, 3] outW rfl
